import Mathlib

/-!
Verification of `boundary_iou/utils/boundary_utils.py`.

The file embeds the repository's boundary-extraction and batch-augmentation
code as Lean definitions and proves the specified properties about them.

Pixel values are the `uint8` values of the numpy arrays, modelled as `ℕ`
with explicit `% 256` where the code performs `uint8` arithmetic.  Images
are indexed by `ℤ` coordinates so that the 3x3 neighbourhood of a border
pixel can be written without truncated subtraction; only coordinates inside
`[0, h) x [0, w)` are ever read by the embedded code.

The external capabilities the code consumes are parameters: `encode`
stands for `pycocotools mask_utils.encode`, `ann_to_mask` for the
`coco.annToMask`-style Mask Provider, and `cpu_count` for
`multiprocessing.cpu_count()` (which is always at least 1).
-/

namespace BoundaryUtils

variable {α β γ δ ε : Type}

/-- A 2D image of shape `(h, w)` with `uint8` pixel values.  `pix i j`
is the value at row `i`, column `j`; only indices with `0 ≤ i < h` and
`0 ≤ j < w` are meaningful. -/
structure Img where
  h : ℕ
  w : ℕ
  pix : ℤ → ℤ → ℕ

/-- A binary mask in the sense of the code: every in-range pixel is 0 or 1. -/
def IsBinary (m : Img) : Prop :=
  ∀ i j : ℤ, 0 ≤ i → i < (m.h : ℤ) → 0 ≤ j → j < (m.w : ℤ) → m.pix i j ≤ 1

/-- Value of a neighbour read by `cv2.erode`: an out-of-bounds read returns
the saturated default border value 255 (`morphologyDefaultBorderValue`,
which never decreases the minimum), an in-bounds read returns the pixel. -/
def nbrVal (H W : ℤ) (img : ℤ → ℤ → ℕ) (i j : ℤ) : ℕ :=
  if 0 ≤ i ∧ i < H ∧ 0 ≤ j ∧ j < W then img i j else 255

/-- One iteration of `cv2.erode(new_mask, kernel)` with the all-ones 3x3
`kernel = np.ones((3, 3), dtype=np.uint8)`: each output pixel is the
minimum of the nine neighbourhood reads. -/
def erodeStep (H W : ℤ) (img : ℤ → ℤ → ℕ) (i j : ℤ) : ℕ :=
  min (nbrVal H W img i j)
    (min (min (min (nbrVal H W img (i - 1) (j - 1)) (nbrVal H W img (i - 1) j))
              (min (nbrVal H W img (i - 1) (j + 1)) (nbrVal H W img i (j - 1))))
         (min (min (nbrVal H W img i (j + 1)) (nbrVal H W img (i + 1) (j - 1)))
              (min (nbrVal H W img (i + 1) j) (nbrVal H W img (i + 1) (j + 1)))))

/-- `cv2.erode(new_mask, kernel, iterations=n)`: `n` iterations of the
single 3x3 erosion on an image of shape `(H, W)`. -/
def erodeIter (n : ℕ) (H W : ℤ) (img : ℤ → ℤ → ℕ) : ℤ → ℤ → ℕ :=
  (fun im => erodeStep H W im)^[n] img

/-- `cv2.copyMakeBorder(mask, 1, 1, 1, 1, cv2.BORDER_CONSTANT, value=0)`:
pad the mask with a 1-pixel zero border on all sides, giving shape
`(h + 2, w + 2)`. -/
def copyMakeBorder (m : Img) : Img :=
  { h := m.h + 2
    w := m.w + 2
    pix := fun i j =>
      if 1 ≤ i ∧ i ≤ (m.h : ℤ) ∧ 1 ≤ j ∧ j ≤ (m.w : ℤ) then m.pix (i - 1) (j - 1) else 0 }

/-- Integer square root `⌊√n⌋`, written with `Nat.findGreatest` so that it
reduces structurally; `isqrt_eq_sqrt` below shows it agrees with `Nat.sqrt`. -/
def isqrt (n : ℕ) : ℕ := Nat.findGreatest (fun k => k * k ≤ n) n

/-- Floor of `(a * sqrt n + b) / c` for naturals, computed exactly:
`⌊(a·√n + b)/c⌋ = ⌊(⌊√(a² n)⌋ + b)/c⌋`. -/
def floorAddDiv (a n b c : ℕ) : ℕ := (isqrt (a ^ 2 * n) + b) / c

/-- `int(round(dilation_ratio * img_diag))` where
`img_diag = np.sqrt(h ** 2 + w ** 2)`, modelled in exact real arithmetic
over the rational `dilation_ratio` value `q`:
for `q > 0` the rounded value is `⌊q·√(h²+w²) + 1/2⌋`, written with
`q = num/den` as `⌊(2·num·√(h²+w²) + den)/(2·den)⌋`; for `q ≤ 0` it is
the negation of the same formula at `|q|` (the value is then `≤ 0`, which
is all the code's clamp observes).  Ties round away from zero. -/
def roundedDilation (q : ℚ) (h w : ℕ) : ℤ :=
  if 0 < q.num then
    (floorAddDiv (2 * q.num.toNat) (h ^ 2 + w ^ 2) q.den (2 * q.den) : ℕ)
  else
    -(floorAddDiv (2 * q.num.natAbs) (h ^ 2 + w ^ 2) q.den (2 * q.den) : ℕ)

/-- The iteration count used by `mask_to_boundary`:
`dilation = int(round(dilation_ratio * img_diag)); if dilation < 1: dilation = 1`. -/
def computeDilation (q : ℚ) (h w : ℕ) : ℕ := (max 1 (roundedDilation q h w)).toNat

/-- `mask_to_boundary(mask, dilation_ratio)`: pad with a 1-pixel zero
border, erode the padded image `dilation` times, crop the border back off
(`new_mask_erode[1 : h + 1, 1 : w + 1]`), and return the `uint8`
difference `mask - mask_erode` (wrapping subtraction, hence `% 256`). -/
def mask_to_boundary (m : Img) (q : ℚ) : Img :=
  let dilation := computeDilation q m.h m.w
  let new_mask := copyMakeBorder m
  let new_mask_erode := erodeIter dilation ((m.h : ℤ) + 2) ((m.w : ℤ) + 2) new_mask.pix
  { h := m.h
    w := m.w
    pix := fun i j => (m.pix i j + 256 - new_mask_erode (i + 1) (j + 1)) % 256 }

/-- A COCO/LVIS style record: an opaque payload (all the fields the code
never touches) plus the optional boundary field the augmentation adds. -/
structure Ann (α β : Type) where
  payload : α
  boundary : Option β

/-- The body of the loop of `augment_annotations_with_boundary_single_core`
for one record: obtain the mask from the Mask Provider, extract its
boundary, RLE-encode it (`encode` stands for the external
`mask_utils.encode` on the column-major reshaped array) and store the
result in the record's boundary field. -/
def add_boundary_ann (encode : Img → β) (ann_to_mask : α → Img) (q : ℚ)
    (a : Ann α β) : Ann α β :=
  { a with boundary := some (encode (mask_to_boundary (ann_to_mask a.payload) q)) }

/-- `augment_annotations_with_boundary_single_core(proc_id, annotations,
ann_to_mask, dilation_ratio)`: process the records in order, appending
each augmented record to the output list (`proc_id` is unused by the
source code). -/
def augment_annotations_with_boundary_single_core (proc_id : ℕ)
    (anns : List (Ann α β)) (encode : Img → β) (ann_to_mask : α → Img)
    (q : ℚ) : List (Ann α β) :=
  anns.map (add_boundary_ann encode ann_to_mask q)

/-- The shard sizes `np.array_split` produces for `n` parts of a length-`N`
input: the first `N % n` parts have size `N / n + 1`, the rest `N / n`. -/
def splitSizes (N n : ℕ) : List ℕ :=
  (List.range n).map (fun i => N / n + if i < N % n then 1 else 0)

/-- Cut a list into consecutive chunks of the given sizes. -/
def splitBySizes : List ℕ → List γ → List (List γ)
  | [], _ => []
  | s :: ss, l => l.take s :: splitBySizes ss (l.drop s)

/-- `np.array_split(annotations, n)`: contiguous, order-preserving split
into `n` near-equal parts, the first `len % n` parts one element longer. -/
def array_split (l : List γ) (n : ℕ) : List (List γ) :=
  splitBySizes (splitSizes l.length n) l

/-- `augment_annotations_with_boundary_multi_core(annotations, ann_to_mask,
dilation_ratio)`: split the records into one shard per core (`cpu_num`
abstracts `multiprocessing.cpu_count()`), submit each shard with its index
as `proc_id` to an isolated worker, and concatenate the shard results in
submission order. -/
def augment_annotations_with_boundary_multi_core (cpu_num : ℕ)
    (anns : List (Ann α β)) (encode : Img → β) (ann_to_mask : α → Img)
    (q : ℚ) : List (Ann α β) :=
  (((array_split anns cpu_num).enum).map
    (fun p => augment_annotations_with_boundary_single_core p.1 p.2 encode ann_to_mask q)).flatten

/-- The Dataset as the code observes it: the ordered annotation list
`coco.dataset["annotations"]` and the `coco.get_boundary` idempotency
flag.  The index (`coco.createIndex()`) is an external capability derived
from the list and carries no state of its own in this model. -/
structure Dataset (α β : Type) where
  annotations : List (Ann α β)
  get_boundary : Bool

/-- Result of `add_boundary_multi_core`: the dataset state after the call
together with whether the call took the skip branch (which emits the
observable message about existing boundaries). -/
structure AddOutcome (α β : Type) where
  dataset : Dataset α β
  skipped : Bool

/-- `add_boundary_multi_core(coco, cpu_num=16, dilation_ratio=0.02)`:
return immediately when the boundary flag is already set; otherwise clamp
the worker count to `min(cpu_num, cpu_count)`, run the split / shard /
gather pipeline (the same body as the multi-core augmenter) over the
annotation list, replace the list wholesale, rebuild the index (external)
and set the flag. -/
def add_boundary_multi_core (cpu_num cpu_count : ℕ) (encode : Img → β)
    (ann_to_mask : α → Img) (q : ℚ) (coco : Dataset α β) : AddOutcome α β :=
  if coco.get_boundary then { dataset := coco, skipped := true }
  else
    { dataset :=
        { annotations :=
            augment_annotations_with_boundary_multi_core (min cpu_num cpu_count)
              coco.annotations encode ann_to_mask q
          get_boundary := true }
      skipped := false }

/-- Single-core augmentation with a fallible Mask Provider: any exception
raised while processing a record aborts the shard with that error (the
loop stops at the first failing record). -/
def augment_single_core_exc (proc_id : ℕ) (encode : Img → β)
    (ann_to_mask : α → Except ε Img) (q : ℚ) :
    List (Ann α β) → Except ε (List (Ann α β))
  | [] => .ok []
  | a :: rest =>
    match ann_to_mask a.payload with
    | .error e => .error e
    | .ok m =>
      match augment_single_core_exc proc_id encode ann_to_mask q rest with
      | .error e => .error e
      | .ok tail => .ok ({ a with boundary := some (encode (mask_to_boundary m q)) } :: tail)

/-- The gather loop `for p in processes: new_annotations.extend(p.get())`:
shard results are appended in submission order; the first failed shard's
error propagates out of the whole call. -/
def collect_results : List (Except ε (List γ)) → Except ε (List γ)
  | [] => .ok []
  | .error e :: _ => .error e
  | .ok s :: rest =>
    match collect_results rest with
    | .error e => .error e
    | .ok t => .ok (s ++ t)

/-- `add_boundary_multi_core` with a fallible Mask Provider.  The value is
the pair (call result, dataset state after the call): in the source the
two mutations (`coco.dataset["annotations"] = new_annotations` and
`coco.get_boundary = True`) happen strictly after the gather loop, so a
worker exception propagates before any mutation and the dataset component
is the unchanged input. -/
def add_boundary_multi_core_exc (cpu_num cpu_count : ℕ) (encode : Img → β)
    (ann_to_mask : α → Except ε Img) (q : ℚ) (coco : Dataset α β) :
    Except ε Unit × Dataset α β :=
  if coco.get_boundary then (.ok (), coco)
  else
    match collect_results
        (((array_split coco.annotations (min cpu_num cpu_count)).enum).map
          (fun p => augment_single_core_exc p.1 encode ann_to_mask q p.2)) with
    | .error e => (.error e, coco)
    | .ok new_anns => (.ok (), { annotations := new_anns, get_boundary := true })

/-- A record's boundary field holds exactly the RLE encoding of the
boundary of the record's own mask. -/
def boundary_consistent (encode : Img → β) (ann_to_mask : α → Img) (q : ℚ)
    (a : Ann α β) : Prop :=
  a.boundary = some (encode (mask_to_boundary (ann_to_mask a.payload) q))

/-- The Dataset invariant of the spec: the flag is true iff every record
carries a boundary field consistent with its mask. -/
def dataset_invariant (encode : Img → β) (ann_to_mask : α → Img) (q : ℚ)
    (d : Dataset α β) : Prop :=
  d.get_boundary = true ↔ ∀ a ∈ d.annotations, boundary_consistent encode ann_to_mask q a

/-- A resolved file path as `pathlib` decomposes it: parent directory,
stem and suffix; the file name is `stem ++ suffix`. -/
structure AnnPath where
  parent : String
  stem : String
  suffix : String

/-- The default `stem_addon` argument of
`coco_add_boundaries_and_save_as_annotation_file`. -/
def default_stem_addon : String := "_b"

/-- The path the orchestrator writes to:
`new_annotation_file = annotation_file.parent / (annotation_file.stem +
stem_addon + annotation_file.suffix)`. -/
def new_annotation_file (annotation_file : AnnPath) (stem_addon : String) : AnnPath :=
  { parent := annotation_file.parent
    stem := annotation_file.stem ++ stem_addon
    suffix := annotation_file.suffix }

/-- `coco_add_boundaries_and_save_as_annotation_file(annotation_file,
stem_addon='_b')` reduced to its observable footprint: it loads the
dataset from `annotation_file` (a read), augments it in memory with
`add_boundary_multi_core` at the default `cpu_num = 16`, re-reads the
original JSON (a read), and performs exactly one write, to
`new_annotation_file annotation_file stem_addon`.  The JSON/UTF-8
serialization mechanics are external.  The value is the augmentation
outcome paired with the single written path. -/
def coco_add_boundaries_and_save_as_annotation_file (cpu_count : ℕ)
    (encode : Img → β) (ann_to_mask : α → Img) (q : ℚ) (coco : Dataset α β)
    (annotation_file : AnnPath) (stem_addon : String) : AddOutcome α β × AnnPath :=
  (add_boundary_multi_core 16 cpu_count encode ann_to_mask q coco,
   new_annotation_file annotation_file stem_addon)

/-! Concrete objects used by the witness theorems. -/

/-- All-ones 2x2 mask. -/
def onesMask2 : Img := { h := 2, w := 2, pix := fun _ _ => 1 }

/-- The 10x10 all-foreground mask of the spec's concrete scenario. -/
def onesMask10 : Img := { h := 10, w := 10, pix := fun _ _ => 1 }

/-- The rational value 0.02 = 1/50 written with an explicit numerator and
denominator so that it reduces in the kernel. -/
def ratioDefault : ℚ := ⟨1, 50, by decide, Nat.coprime_one_left 50⟩

/-- A sample RLE-encoder stand-in used by witnesses. -/
def encodeDim : Img → ℕ := fun m => m.h * 1000 + m.w

/-- A sample Mask Provider used by witnesses. -/
def maskOfNat : ℕ → Img := fun _ => onesMask2

/-- Three sample records used by witnesses. -/
def sampleAnns : List (Ann ℕ ℕ) := [⟨0, none⟩, ⟨1, none⟩, ⟨2, none⟩]

/-- A second provider, different from `maskOfNat`, for the C4 witness. -/
def maskOfNatBig : ℕ → Img := fun _ => onesMask10

/-- A Mask Provider that fails on every record, for the C5 witness. -/
def failProvider : ℕ → Except ℕ Img := fun _ => .error 7

/-! Helper lemmas. -/

lemma isqrt_eq_sqrt (n : ℕ) : isqrt n = Nat.sqrt n := by
  unfold isqrt
  rw [Nat.findGreatest_eq_iff]
  refine ⟨Nat.sqrt_le_self n, fun _ => Nat.sqrt_le n, fun k hk _ hP => ?_⟩
  have h1 : Nat.sqrt n + 1 ≤ k := hk
  have h2 : n < (Nat.sqrt n + 1) * (Nat.sqrt n + 1) := Nat.lt_succ_sqrt n
  have h3 : (Nat.sqrt n + 1) * (Nat.sqrt n + 1) ≤ k * k :=
    Nat.mul_le_mul h1 h1
  omega

lemma erodeStep_le_self (H W : ℤ) (img : ℤ → ℤ → ℕ) (i j : ℤ)
    (hi0 : 0 ≤ i) (hiH : i < H) (hj0 : 0 ≤ j) (hjW : j < W) :
    erodeStep H W img i j ≤ img i j := by
  have hc : nbrVal H W img i j = img i j := by
    simp [nbrVal, hi0, hiH, hj0, hjW]
  have h1 : erodeStep H W img i j ≤ nbrVal H W img i j := by
    unfold erodeStep
    exact min_le_left _ _
  exact hc ▸ h1

lemma erodeIter_le_self (n : ℕ) (H W : ℤ) (img : ℤ → ℤ → ℕ) (i j : ℤ)
    (hi0 : 0 ≤ i) (hiH : i < H) (hj0 : 0 ≤ j) (hjW : j < W) :
    erodeIter n H W img i j ≤ img i j := by
  induction n with
  | zero => simp [erodeIter]
  | succ k ih =>
    have hrw : erodeIter (k + 1) H W img = erodeStep H W (erodeIter k H W img) := by
      simp only [erodeIter, Function.iterate_succ_apply']
    calc erodeIter (k + 1) H W img i j
        = erodeStep H W (erodeIter k H W img) i j := by rw [hrw]
      _ ≤ erodeIter k H W img i j :=
          erodeStep_le_self H W _ i j hi0 hiH hj0 hjW
      _ ≤ img i j := ih

lemma copyMakeBorder_pix (m : Img) (i j : ℤ)
    (hi0 : 0 ≤ i) (hih : i < (m.h : ℤ)) (hj0 : 0 ≤ j) (hjw : j < (m.w : ℤ)) :
    (copyMakeBorder m).pix (i + 1) (j + 1) = m.pix i j := by
  have hcond : 1 ≤ i + 1 ∧ i + 1 ≤ (m.h : ℤ) ∧ 1 ≤ j + 1 ∧ j + 1 ≤ (m.w : ℤ) := by
    omega
  simp only [copyMakeBorder, if_pos hcond, add_sub_cancel_right]

/-- The cropped eroded value never exceeds the original mask value: the
`uint8` subtraction in `mask_to_boundary` cannot underflow. -/
lemma erode_crop_le (m : Img) (q : ℚ) (i j : ℤ)
    (hi0 : 0 ≤ i) (hih : i < (m.h : ℤ)) (hj0 : 0 ≤ j) (hjw : j < (m.w : ℤ)) :
    erodeIter (computeDilation q m.h m.w) ((m.h : ℤ) + 2) ((m.w : ℤ) + 2)
      (copyMakeBorder m).pix (i + 1) (j + 1) ≤ m.pix i j := by
  have hb := erodeIter_le_self (computeDilation q m.h m.w) ((m.h : ℤ) + 2) ((m.w : ℤ) + 2)
    (copyMakeBorder m).pix (i + 1) (j + 1) (by omega) (by omega) (by omega) (by omega)
  exact (copyMakeBorder_pix m i j hi0 hih hj0 hjw) ▸ hb

lemma one_div_fifty_eq : (1 / 50 : ℚ) = ratioDefault := by
  rw [← Rat.num_div_den ratioDefault]
  show (1 : ℚ) / 50 = ((1 : ℤ) : ℚ) / ((50 : ℕ) : ℚ)
  norm_num

lemma sum_range_ite (sq r : ℕ) : ∀ n : ℕ,
    ((List.range n).map (fun i => sq + if i < r then 1 else 0)).sum = n * sq + min r n := by
  intro n
  induction n with
  | zero => simp
  | succ k ih =>
    rw [List.range_succ, List.map_append, List.sum_append, ih]
    simp only [List.map_cons, List.map_nil, List.sum_cons, List.sum_nil]
    rcases lt_or_ge k r with hlt | hge
    · rw [if_pos hlt, Nat.succ_mul]; omega
    · rw [if_neg (not_lt.mpr hge), Nat.succ_mul]; omega

lemma splitSizes_sum (N n : ℕ) (hn : 1 ≤ n) : (splitSizes N n).sum = N := by
  unfold splitSizes
  rw [sum_range_ite]
  have hmod : N % n < n := Nat.mod_lt _ hn
  rw [min_eq_left (le_of_lt hmod)]
  exact Nat.div_add_mod N n

lemma splitSizes_length (N n : ℕ) : (splitSizes N n).length = n := by
  simp [splitSizes]

lemma splitBySizes_length (ss : List ℕ) (l : List γ) :
    (splitBySizes ss l).length = ss.length := by
  induction ss generalizing l with
  | nil => rfl
  | cons s ss ih => simp [splitBySizes, ih]

lemma splitBySizes_flatten (ss : List ℕ) (l : List γ) :
    (splitBySizes ss l).flatten = l.take ss.sum := by
  induction ss generalizing l with
  | nil => simp [splitBySizes]
  | cons s ss ih =>
    rw [splitBySizes, List.flatten_cons, ih, List.sum_cons, List.take_add]

lemma array_split_length (l : List γ) (n : ℕ) : (array_split l n).length = n := by
  rw [array_split, splitBySizes_length, splitSizes_length]

lemma array_split_flatten (l : List γ) (n : ℕ) (hn : 1 ≤ n) :
    (array_split l n).flatten = l := by
  rw [array_split, splitBySizes_flatten, splitSizes_sum l.length n hn, List.take_length]

lemma multi_core_eq_single_core (cpu_num : ℕ) (hn : 1 ≤ cpu_num)
    (anns : List (Ann α β)) (encode : Img → β) (ann_to_mask : α → Img)
    (q : ℚ) (proc_id : ℕ) :
    augment_annotations_with_boundary_multi_core cpu_num anns encode ann_to_mask q =
      augment_annotations_with_boundary_single_core proc_id anns encode ann_to_mask q := by
  unfold augment_annotations_with_boundary_multi_core
    augment_annotations_with_boundary_single_core
  have hfun : (fun p : ℕ × List (Ann α β) =>
      (p.2).map (add_boundary_ann encode ann_to_mask q)) =
      (List.map (add_boundary_ann encode ann_to_mask q)) ∘ Prod.snd := rfl
  rw [hfun, ← List.map_map, List.enum_map_snd, ← List.map_flatten,
    array_split_flatten anns cpu_num hn]

lemma augment_single_core_exc_ok (E : Type) (proc_id : ℕ) (encode : Img → β)
    (g : α → Img) (q : ℚ) (anns : List (Ann α β)) :
    augment_single_core_exc proc_id encode (fun a => (Except.ok (g a) : Except E Img)) q anns =
      .ok (augment_annotations_with_boundary_single_core proc_id anns encode g q) := by
  induction anns with
  | nil => rfl
  | cons a rest ih =>
    simp [augment_single_core_exc, ih,
      augment_annotations_with_boundary_single_core, add_boundary_ann]

lemma augment_single_core_exc_error (proc_id : ℕ) (encode : Img → β)
    (ann_to_mask : α → Except ε Img) (q : ℚ) (anns : List (Ann α β))
    (hfail : ∃ a ∈ anns, ∃ e0, ann_to_mask a.payload = .error e0) :
    ∃ e1, augment_single_core_exc proc_id encode ann_to_mask q anns = .error e1 := by
  induction anns with
  | nil =>
    rcases hfail with ⟨a, ha, _⟩
    cases ha
  | cons a rest ih =>
    rcases hfail with ⟨b, hb, e0, hb2⟩
    rcases List.mem_cons.mp hb with rfl | hbrest
    · exact ⟨e0, by simp [augment_single_core_exc, hb2]⟩
    · cases hma : ann_to_mask a.payload with
      | error e => exact ⟨e, by simp [augment_single_core_exc, hma]⟩
      | ok m =>
        rcases ih ⟨b, hbrest, e0, hb2⟩ with ⟨e1, he1⟩
        exact ⟨e1, by simp [augment_single_core_exc, hma, he1]⟩

lemma collect_results_map_ok (E : Type) (f : δ → List γ) (L : List δ) :
    collect_results (L.map (fun s => (Except.ok (f s) : Except E (List γ)))) =
      .ok ((L.map f).flatten) := by
  induction L with
  | nil => rfl
  | cons s rest ih => simp [collect_results, ih]

lemma collect_results_error (ps : List (Except ε (List γ)))
    (hfail : ∃ p ∈ ps, ∃ e0, p = Except.error e0) :
    ∃ e1, collect_results ps = .error e1 := by
  induction ps with
  | nil =>
    rcases hfail with ⟨p, hp, _⟩
    cases hp
  | cons p rest ih =>
    rcases hfail with ⟨b, hb, e0, hb2⟩
    rcases List.mem_cons.mp hb with rfl | hbrest
    · exact ⟨e0, by rw [hb2]; rfl⟩
    · cases p with
      | error e => exact ⟨e, rfl⟩
      | ok s =>
        rcases ih ⟨b, hbrest, e0, hb2⟩ with ⟨e1, he1⟩
        exact ⟨e1, by simp [collect_results, he1]⟩

/-! Claim theorems. -/

/-- C1: for every 2D binary mask and every dilation ratio, the boundary
mask has the same shape as the source, every in-range pixel value stays in
\x7b0, 1\x7d, the `uint8` subtraction never underflows (the eroded value is at
most the source value), and a pixel is 1 exactly when it is foreground in
the source mask and the `dilation` iterations of 3x3 erosion of the
zero-padded source remove it. -/
theorem C1_mask_to_boundary_correct (m : Img) (q : ℚ) (hb : IsBinary m)
    (i j : ℤ) (hi0 : 0 ≤ i) (hih : i < (m.h : ℤ)) (hj0 : 0 ≤ j) (hjw : j < (m.w : ℤ)) :
    (mask_to_boundary m q).h = m.h ∧ (mask_to_boundary m q).w = m.w ∧
    erodeIter (computeDilation q m.h m.w) ((m.h : ℤ) + 2) ((m.w : ℤ) + 2)
      (copyMakeBorder m).pix (i + 1) (j + 1) ≤ m.pix i j ∧
    (mask_to_boundary m q).pix i j ≤ 1 ∧
    ((mask_to_boundary m q).pix i j = 1 ↔
      m.pix i j = 1 ∧
      erodeIter (computeDilation q m.h m.w) ((m.h : ℤ) + 2) ((m.w : ℤ) + 2)
        (copyMakeBorder m).pix (i + 1) (j + 1) = 0) := by
  have hle := erode_crop_le m q i j hi0 hih hj0 hjw
  have hm1 : m.pix i j ≤ 1 := hb i j hi0 hih hj0 hjw
  have hpix : (mask_to_boundary m q).pix i j =
      (m.pix i j + 256 - erodeIter (computeDilation q m.h m.w)
        ((m.h : ℤ) + 2) ((m.w : ℤ) + 2) (copyMakeBorder m).pix (i + 1) (j + 1)) % 256 := rfl
  refine ⟨rfl, rfl, hle, ?_, ?_⟩
  · rw [hpix]; omega
  · rw [hpix]
    constructor
    · intro hone
      constructor <;> omega
    · rintro ⟨h1, h2⟩
      omega

/-- Witness for C1: the all-ones 2x2 mask at ratio 1/50, pixel (0, 0). -/
theorem C1_mask_to_boundary_correct_witness :
    IsBinary onesMask2 ∧
    ((mask_to_boundary onesMask2 (1 / 50)).h = onesMask2.h ∧
     (mask_to_boundary onesMask2 (1 / 50)).w = onesMask2.w ∧
     erodeIter (computeDilation (1 / 50) onesMask2.h onesMask2.w)
       ((onesMask2.h : ℤ) + 2) ((onesMask2.w : ℤ) + 2)
       (copyMakeBorder onesMask2).pix (0 + 1) (0 + 1) ≤ onesMask2.pix 0 0 ∧
     (mask_to_boundary onesMask2 (1 / 50)).pix 0 0 ≤ 1 ∧
     ((mask_to_boundary onesMask2 (1 / 50)).pix 0 0 = 1 ↔
       onesMask2.pix 0 0 = 1 ∧
       erodeIter (computeDilation (1 / 50) onesMask2.h onesMask2.w)
         ((onesMask2.h : ℤ) + 2) ((onesMask2.w : ℤ) + 2)
         (copyMakeBorder onesMask2).pix (0 + 1) (0 + 1) = 0)) :=
  ⟨fun _ _ _ _ _ _ => le_refl 1,
   C1_mask_to_boundary_correct onesMask2 (1 / 50) (fun _ _ _ _ _ _ => le_refl 1)
     0 0 (by decide) (by decide) (by decide) (by decide)⟩

/-- C9: a dilation ratio that is not positive, or whose rounded product
with the image diagonal is below 1, is not an error: the computed
iteration count is clamped to exactly 1.  (`computeDilation` is a total
function, so no error can be raised.) -/
theorem C9_dilation_clamped_to_one (q : ℚ) (h w : ℕ)
    (hq : q ≤ 0 ∨ roundedDilation q h w < 1) :
    computeDilation q h w = 1 := by
  have hle : roundedDilation q h w ≤ 1 := by
    rcases hq with hq | hq
    · have hnum : ¬ 0 < q.num := by
        rw [not_lt]
        exact Rat.num_nonpos.mpr hq
      unfold roundedDilation
      rw [if_neg hnum]
      omega
    · exact le_of_lt hq
  unfold computeDilation
  rw [max_eq_left hle]
  rfl

theorem C9_dilation_clamped_to_one_witness :
    ((-1 : ℚ) ≤ 0 ∨ roundedDilation (-1) 3 4 < 1) ∧ computeDilation (-1) 3 4 = 1 :=
  ⟨Or.inl (by norm_num),
   C9_dilation_clamped_to_one (-1) 3 4 (Or.inl (by norm_num))⟩

set_option maxRecDepth 100000 in
/-- C8: on the 10x10 all-foreground mask with ratio 0.02 = 1/50 the
computed dilation is `max(round(0.02 * sqrt 200), 1) = 1` and the boundary
mask is exactly the 1-pixel perimeter ring: 1 on the outer ring, 0 on the
interior 8x8 block. -/
theorem C8_ring_scenario :
    computeDilation (1 / 50) 10 10 = 1 ∧
    ∀ i j : Fin 10,
      (mask_to_boundary onesMask10 (1 / 50)).pix ((i : ℕ) : ℤ) ((j : ℕ) : ℤ) =
        (if i = 0 ∨ i = 9 ∨ j = 0 ∨ j = 9 then 1 else 0) := by
  rw [one_div_fifty_eq]
  exact ⟨by decide, by decide⟩

/-- C2: sequential single-core processing of the full record list yields
exactly the multi-core result (split into shards, shard-wise single-core
processing, concatenation in submission order) for every worker count of
at least 1; the same holds for the worker count `min(cpu_num, cpu_count)`
used by `add_boundary_multi_core` on a not-yet-augmented dataset. -/
theorem C2_multi_core_eq_single_core (cpu_num cpu_count : ℕ)
    (h1 : 1 ≤ cpu_num) (h2 : 1 ≤ cpu_count) (anns : List (Ann α β))
    (encode : Img → β) (ann_to_mask : α → Img) (q : ℚ) (proc_id : ℕ) :
    augment_annotations_with_boundary_multi_core cpu_num anns encode ann_to_mask q =
      augment_annotations_with_boundary_single_core proc_id anns encode ann_to_mask q ∧
    (add_boundary_multi_core cpu_num cpu_count encode ann_to_mask q
        { annotations := anns, get_boundary := false }).dataset.annotations =
      augment_annotations_with_boundary_single_core proc_id anns encode ann_to_mask q := by
  have hmin : 1 ≤ min cpu_num cpu_count := le_min h1 h2
  constructor
  · exact multi_core_eq_single_core cpu_num h1 anns encode ann_to_mask q proc_id
  · show augment_annotations_with_boundary_multi_core (min cpu_num cpu_count)
        anns encode ann_to_mask q = _
    exact multi_core_eq_single_core _ hmin anns encode ann_to_mask q proc_id

theorem C2_multi_core_eq_single_core_witness :
    (1 ≤ 2 ∧ 1 ≤ 3) ∧
    (augment_annotations_with_boundary_multi_core 2 sampleAnns encodeDim maskOfNat (1 / 50) =
       augment_annotations_with_boundary_single_core 0 sampleAnns encodeDim maskOfNat (1 / 50) ∧
     (add_boundary_multi_core 2 3 encodeDim maskOfNat (1 / 50)
         { annotations := sampleAnns, get_boundary := false }).dataset.annotations =
       augment_annotations_with_boundary_single_core 0 sampleAnns encodeDim maskOfNat (1 / 50)) :=
  ⟨⟨by decide, by decide⟩,
   C2_multi_core_eq_single_core 2 3 (by decide) (by decide) sampleAnns
     encodeDim maskOfNat (1 / 50) 0⟩

/-- C3: for any ordered input and any worker count `W` with `1 ≤ W ≤ N`,
the numpy-style partition has exactly `W` contiguous shards whose sizes
sum to `N`, and concatenating the shards in submission order restores the
input list exactly: same length, same order, no element duplicated or
dropped. -/
theorem C3_partition_exact (l : List γ) (W : ℕ) (h1 : 1 ≤ W) (h2 : W ≤ l.length) :
    (splitSizes l.length W).sum = l.length ∧
    (array_split l W).length = W ∧
    (array_split l W).flatten = l :=
  ⟨splitSizes_sum _ _ h1, array_split_length _ _, array_split_flatten _ _ h1⟩

theorem C3_partition_exact_witness :
    (1 ≤ 2 ∧ 2 ≤ ([0, 1, 2] : List ℕ).length) ∧
    ((splitSizes ([0, 1, 2] : List ℕ).length 2).sum = ([0, 1, 2] : List ℕ).length ∧
     (array_split ([0, 1, 2] : List ℕ) 2).length = 2 ∧
     (array_split ([0, 1, 2] : List ℕ) 2).flatten = [0, 1, 2]) :=
  ⟨⟨by decide, by decide⟩, C3_partition_exact [0, 1, 2] 2 (by decide) (by decide)⟩

/-- C4: calling `add_boundary_multi_core` on a dataset whose boundary flag
is already true returns the dataset unchanged together with the skip
signal, identically for every Mask Provider (the provider is never
consulted); and a second call on the dataset produced by any first call is
exactly such a no-op, so the annotation collection after the second call
equals the collection after the first. -/
theorem C4_second_call_noop (cpu_num cpu_count : ℕ) (encode : Img → β)
    (f g : α → Img) (q : ℚ) (d e : Dataset α β) (hd : d.get_boundary = true) :
    add_boundary_multi_core cpu_num cpu_count encode f q d =
      { dataset := d, skipped := true } ∧
    add_boundary_multi_core cpu_num cpu_count encode f q d =
      add_boundary_multi_core cpu_num cpu_count encode g q d ∧
    add_boundary_multi_core cpu_num cpu_count encode f q
        (add_boundary_multi_core cpu_num cpu_count encode f q e).dataset =
      { dataset := (add_boundary_multi_core cpu_num cpu_count encode f q e).dataset,
        skipped := true } := by
  have hskip : ∀ (hf : α → Img) (d2 : Dataset α β), d2.get_boundary = true →
      add_boundary_multi_core cpu_num cpu_count encode hf q d2 =
        { dataset := d2, skipped := true } := by
    intro hf d2 hd2
    simp [add_boundary_multi_core, hd2]
  have hflag : (add_boundary_multi_core cpu_num cpu_count encode f q e).dataset.get_boundary
      = true := by
    by_cases he : e.get_boundary = true
    · simp [add_boundary_multi_core, he]
    · simp [add_boundary_multi_core, he]
  refine ⟨hskip f d hd, ?_, hskip f _ hflag⟩
  rw [hskip f d hd, hskip g d hd]

theorem C4_second_call_noop_witness :
    (Dataset.get_boundary { annotations := sampleAnns, get_boundary := true } = true) ∧
    (add_boundary_multi_core 16 4 encodeDim maskOfNat (1 / 50)
        { annotations := sampleAnns, get_boundary := true } =
      { dataset := { annotations := sampleAnns, get_boundary := true }, skipped := true } ∧
     add_boundary_multi_core 16 4 encodeDim maskOfNat (1 / 50)
        { annotations := sampleAnns, get_boundary := true } =
      add_boundary_multi_core 16 4 encodeDim maskOfNatBig (1 / 50)
        { annotations := sampleAnns, get_boundary := true } ∧
     add_boundary_multi_core 16 4 encodeDim maskOfNat (1 / 50)
        (add_boundary_multi_core 16 4 encodeDim maskOfNat (1 / 50)
          { annotations := sampleAnns, get_boundary := false }).dataset =
      { dataset := (add_boundary_multi_core 16 4 encodeDim maskOfNat (1 / 50)
          { annotations := sampleAnns, get_boundary := false }).dataset,
        skipped := true }) :=
  ⟨rfl,
   C4_second_call_noop 16 4 encodeDim maskOfNat maskOfNatBig (1 / 50)
     { annotations := sampleAnns, get_boundary := true }
     { annotations := sampleAnns, get_boundary := false } rfl⟩

/-- C5: if the Mask Provider raises for some record of a dataset whose
boundary flag is false, the whole `add_boundary_multi_core` call fails
with an error and the dataset is left entirely unmodified: the flag stays
false, the annotation list is untouched, and no partial results are
merged. -/
theorem C5_worker_failure_aborts (cpu_num cpu_count : ℕ) (encode : Img → β)
    (ann_to_mask : α → Except ε Img) (q : ℚ) (d : Dataset α β)
    (hflag : d.get_boundary = false) (hW : 1 ≤ min cpu_num cpu_count)
    (hfail : ∃ a ∈ d.annotations, ∃ e0, ann_to_mask a.payload = .error e0) :
    (∃ e1, (add_boundary_multi_core_exc cpu_num cpu_count encode ann_to_mask q d).1 =
      .error e1) ∧
    (add_boundary_multi_core_exc cpu_num cpu_count encode ann_to_mask q d).2 = d := by
  rcases hfail with ⟨a, ha, e0, he0⟩
  have hmem : a ∈ (array_split d.annotations (min cpu_num cpu_count)).flatten := by
    rw [array_split_flatten _ _ hW]
    exact ha
  rcases List.mem_flatten.mp hmem with ⟨s, hs, has⟩
  have hs2 : s ∈ (array_split d.annotations (min cpu_num cpu_count)).enum.map Prod.snd := by
    rw [List.enum_map_snd]
    exact hs
  rcases List.mem_map.mp hs2 with ⟨pr, hpr, hpr2⟩
  have hbad : ∃ p ∈ ((array_split d.annotations (min cpu_num cpu_count)).enum.map
      (fun p => augment_single_core_exc p.1 encode ann_to_mask q p.2)),
      ∃ e2, p = Except.error e2 := by
    refine ⟨augment_single_core_exc pr.1 encode ann_to_mask q pr.2,
      List.mem_map_of_mem _ hpr, ?_⟩
    exact augment_single_core_exc_error pr.1 encode ann_to_mask q pr.2
      ⟨a, hpr2.symm ▸ has, e0, he0⟩
  rcases collect_results_error _ hbad with ⟨e1, he1⟩
  constructor
  · exact ⟨e1, by simp [add_boundary_multi_core_exc, hflag, he1]⟩
  · simp [add_boundary_multi_core_exc, hflag, he1]

theorem C5_worker_failure_aborts_witness :
    (Dataset.get_boundary { annotations := sampleAnns, get_boundary := false } = false ∧
     1 ≤ min 16 4 ∧
     ∃ a ∈ Dataset.annotations { annotations := sampleAnns, get_boundary := false },
       ∃ e0, failProvider a.payload = .error e0) ∧
    ((∃ e1, (add_boundary_multi_core_exc 16 4 encodeDim failProvider (1 / 50)
        { annotations := sampleAnns, get_boundary := false }).1 = .error e1) ∧
     (add_boundary_multi_core_exc 16 4 encodeDim failProvider (1 / 50)
        { annotations := sampleAnns, get_boundary := false }).2 =
       { annotations := sampleAnns, get_boundary := false }) :=
  ⟨⟨rfl, by decide, ⟨⟨0, none⟩, by unfold sampleAnns; exact List.mem_cons_self _ _, 7, rfl⟩⟩,
   C5_worker_failure_aborts 16 4 encodeDim failProvider (1 / 50)
     { annotations := sampleAnns, get_boundary := false } rfl (by decide)
     ⟨⟨0, none⟩, by unfold sampleAnns; exact List.mem_cons_self _ _, 7, rfl⟩⟩

/-- C7: `add_boundary_multi_core` maintains the dataset invariant: from any
dataset satisfying it the resulting dataset satisfies it; when the flag is
already true the call skips all work and returns the dataset unchanged;
when the flag is false the result is exactly the dataset whose annotation
collection is the fully augmented sequence and whose flag is set to
true. -/
theorem C7_dataset_invariant_maintained (cpu_num cpu_count : ℕ)
    (encode : Img → β) (ann_to_mask : α → Img) (q : ℚ) (d : Dataset α β)
    (h1 : 1 ≤ cpu_num) (h2 : 1 ≤ cpu_count)
    (hinv : dataset_invariant encode ann_to_mask q d) :
    dataset_invariant encode ann_to_mask q
      (add_boundary_multi_core cpu_num cpu_count encode ann_to_mask q d).dataset ∧
    (d.get_boundary = true →
      add_boundary_multi_core cpu_num cpu_count encode ann_to_mask q d =
        { dataset := d, skipped := true }) ∧
    (d.get_boundary = false →
      (add_boundary_multi_core cpu_num cpu_count encode ann_to_mask q d).dataset =
        { annotations :=
            augment_annotations_with_boundary_single_core 0 d.annotations encode ann_to_mask q
          get_boundary := true }) := by
  have hmin : 1 ≤ min cpu_num cpu_count := le_min h1 h2
  by_cases hd : d.get_boundary = true
  · refine ⟨?_, fun _ => by simp [add_boundary_multi_core, hd],
      fun hfalse => by rw [hd] at hfalse; cases hfalse⟩
    have hds : (add_boundary_multi_core cpu_num cpu_count encode ann_to_mask q d).dataset
        = d := by
      simp [add_boundary_multi_core, hd]
    rw [hds]
    exact hinv
  · have hd2 : d.get_boundary = false := by
      cases hb : d.get_boundary
      · rfl
      · exact absurd hb hd
    have hres : (add_boundary_multi_core cpu_num cpu_count encode ann_to_mask q d).dataset =
        { annotations :=
            augment_annotations_with_boundary_single_core 0 d.annotations encode ann_to_mask q
          get_boundary := true } := by
      simp [add_boundary_multi_core, hd2]
      exact multi_core_eq_single_core (min cpu_num cpu_count) hmin
        d.annotations encode ann_to_mask q 0
    refine ⟨?_, fun htrue => absurd htrue hd, fun _ => hres⟩
    rw [hres]
    unfold dataset_invariant
    constructor
    · intro _ a hamem
      have hamem2 : a ∈ d.annotations.map (add_boundary_ann encode ann_to_mask q) := hamem
      rcases List.mem_map.mp hamem2 with ⟨b, _, rfl⟩
      rfl
    · intro _
      rfl

theorem C7_dataset_invariant_maintained_witness :
    (1 ≤ 16 ∧ 1 ≤ 4 ∧
     dataset_invariant encodeDim maskOfNat (1 / 50)
       { annotations := sampleAnns, get_boundary := false }) ∧
    (dataset_invariant encodeDim maskOfNat (1 / 50)
       (add_boundary_multi_core 16 4 encodeDim maskOfNat (1 / 50)
         { annotations := sampleAnns, get_boundary := false }).dataset ∧
     (Dataset.get_boundary { annotations := sampleAnns, get_boundary := false } = true →
       add_boundary_multi_core 16 4 encodeDim maskOfNat (1 / 50)
           { annotations := sampleAnns, get_boundary := false } =
         { dataset := { annotations := sampleAnns, get_boundary := false }, skipped := true }) ∧
     (Dataset.get_boundary { annotations := sampleAnns, get_boundary := false } = false →
       (add_boundary_multi_core 16 4 encodeDim maskOfNat (1 / 50)
           { annotations := sampleAnns, get_boundary := false }).dataset =
         { annotations := augment_annotations_with_boundary_single_core 0
             sampleAnns encodeDim maskOfNat (1 / 50)
           get_boundary := true })) := by
  have hinv : dataset_invariant encodeDim maskOfNat (1 / 50)
      { annotations := sampleAnns, get_boundary := false } := by
    unfold dataset_invariant
    constructor
    · intro h
      cases h
    · intro hall
      have h0 := hall ⟨0, none⟩ (by unfold sampleAnns; exact List.mem_cons_self _ _)
      unfold boundary_consistent at h0
      simp at h0
  refine ⟨⟨by decide, by decide, hinv⟩, ?_⟩
  have hmain := C7_dataset_invariant_maintained 16 4 encodeDim maskOfNat (1 / 50)
    { annotations := sampleAnns, get_boundary := false } (by decide) (by decide) hinv
  exact ⟨hmain.1, hmain.2.1, fun _ => hmain.2.2 rfl⟩

lemma add_exc_total (E : Type) (cpu_num cpu_count : ℕ) (hmin : 1 ≤ min cpu_num cpu_count)
    (encode : Img → β) (g : α → Img) (q : ℚ) (anns : List (Ann α β)) :
    add_boundary_multi_core_exc cpu_num cpu_count encode
        (fun a => (Except.ok (g a) : Except E Img)) q
        { annotations := anns, get_boundary := false } =
      (.ok (), { annotations := anns.map (add_boundary_ann encode g q)
                 get_boundary := true }) := by
  have hjk : ((array_split anns (min cpu_num cpu_count)).enum.map
      (fun p => augment_single_core_exc p.1 encode
        (fun a => (Except.ok (g a) : Except E Img)) q p.2)) =
      ((array_split anns (min cpu_num cpu_count)).enum.map
      (fun p => (Except.ok (augment_annotations_with_boundary_single_core
        p.1 p.2 encode g q) : Except E (List (Ann α β))))) :=
    List.map_congr_left (fun p _ => augment_single_core_exc_ok E p.1 encode g q p.2)
  have hcomp : ((array_split anns (min cpu_num cpu_count)).enum.map
      (fun p => (Except.ok (augment_annotations_with_boundary_single_core
        p.1 p.2 encode g q) : Except E (List (Ann α β))))) =
      ((array_split anns (min cpu_num cpu_count)).map
      (fun s => (Except.ok (s.map (add_boundary_ann encode g q))
        : Except E (List (Ann α β))))) := by
    have hfun : (fun p : ℕ × List (Ann α β) =>
        (Except.ok (augment_annotations_with_boundary_single_core
          p.1 p.2 encode g q) : Except E (List (Ann α β)))) =
        (fun s : List (Ann α β) =>
          (Except.ok (s.map (add_boundary_ann encode g q))
            : Except E (List (Ann α β)))) ∘ Prod.snd := rfl
    rw [hfun, ← List.map_map, List.enum_map_snd]
  have hcollect : collect_results ((array_split anns (min cpu_num cpu_count)).enum.map
      (fun p => augment_single_core_exc p.1 encode
        (fun a => (Except.ok (g a) : Except E Img)) q p.2)) =
      .ok (anns.map (add_boundary_ann encode g q)) := by
    rw [hjk, hcomp, collect_results_map_ok, ← List.map_flatten,
      array_split_flatten _ _ hmin]
  simp [add_boundary_multi_core_exc, hcollect]

/-- C10: the degenerate sizes also succeed: for a total Mask Provider, a
worker budget whose clamped value `min(cpu_num, cpu_count)` is at least 1
and strictly exceeds the number of records (so the tail shards are empty
and contribute nothing), the call completes without error, sets the flag,
and returns exactly the input records in order with only the boundary
field added; on the empty dataset the result is the empty collection with
the flag true. -/
theorem C10_degenerate_sizes (E : Type) (cpu_num cpu_count : ℕ) (encode : Img → β)
    (g : α → Img) (q : ℚ) (anns : List (Ann α β))
    (h1 : 1 ≤ min cpu_num cpu_count)
    (hsmall : anns.length < min cpu_num cpu_count) :
    add_boundary_multi_core_exc cpu_num cpu_count encode
        (fun a => (Except.ok (g a) : Except E Img)) q
        { annotations := anns, get_boundary := false } =
      (.ok (), { annotations := anns.map (add_boundary_ann encode g q)
                 get_boundary := true }) ∧
    add_boundary_multi_core_exc cpu_num cpu_count encode
        (fun a => (Except.ok (g a) : Except E Img)) q
        { annotations := [], get_boundary := false } =
      (.ok (), { annotations := [], get_boundary := true }) := by
  refine ⟨add_exc_total E cpu_num cpu_count h1 encode g q anns, ?_⟩
  have h := add_exc_total E cpu_num cpu_count h1 encode g q ([] : List (Ann α β))
  simpa using h

theorem C10_degenerate_sizes_witness :
    (1 ≤ min 16 4 ∧ sampleAnns.length < min 16 4) ∧
    (add_boundary_multi_core_exc 16 4 encodeDim
        (fun a => (Except.ok (maskOfNat a) : Except ℕ Img)) (1 / 50)
        { annotations := sampleAnns, get_boundary := false } =
      (.ok (), { annotations := sampleAnns.map (add_boundary_ann encodeDim maskOfNat (1 / 50))
                 get_boundary := true }) ∧
     add_boundary_multi_core_exc 16 4 encodeDim
        (fun a => (Except.ok (maskOfNat a) : Except ℕ Img)) (1 / 50)
        { annotations := [], get_boundary := false } =
      (.ok (), { annotations := [], get_boundary := true })) :=
  ⟨⟨by decide, by decide⟩,
   C10_degenerate_sizes ℕ 16 4 encodeDim maskOfNat (1 / 50) sampleAnns
     (by decide) (by decide)⟩

/-- C6 counterexample: with the empty `stem_addon` the single path the
orchestrator writes equals the input path itself, so the original file is
overwritten, refuting the claim for the empty suffix. -/
theorem C6_output_path_counterexample :
    (coco_add_boundaries_and_save_as_annotation_file 1 encodeDim maskOfNat (1 / 50)
        { annotations := sampleAnns, get_boundary := false }
        { parent := "data", stem := "instances", suffix := ".json" } "").2 =
      { parent := "data", stem := "instances", suffix := ".json" } := by
  show new_annotation_file _ "" = _
  simp [new_annotation_file]

/-- C6 amended: the orchestrator performs its single write to the path
`{stem}{stem_addon}{suffix}` in the input's directory for every addon, and
whenever `stem_addon` is nonempty (in particular the default `_b`) that
path differs from the input path, so the original file is not overwritten;
with the empty addon the two paths coincide. -/
theorem C6_output_path (cpu_count : ℕ) (encode : Img → β) (ann_to_mask : α → Img)
    (q : ℚ) (coco : Dataset α β) (p : AnnPath) (stem_addon : String)
    (hne : stem_addon ≠ "") :
    (coco_add_boundaries_and_save_as_annotation_file cpu_count encode ann_to_mask q
        coco p stem_addon).2 = new_annotation_file p stem_addon ∧
    (new_annotation_file p stem_addon).parent = p.parent ∧
    (new_annotation_file p stem_addon).stem ++ (new_annotation_file p stem_addon).suffix =
      p.stem ++ stem_addon ++ p.suffix ∧
    new_annotation_file p stem_addon ≠ p := by
  refine ⟨rfl, rfl, rfl, ?_⟩
  intro heq
  have hstem : p.stem ++ stem_addon = p.stem := congrArg AnnPath.stem heq
  have hlen := congrArg String.length hstem
  rw [String.length_append] at hlen
  have hzero : stem_addon.length = 0 := by omega
  apply hne
  cases stem_addon with
  | mk data =>
    cases data with
    | nil => rfl
    | cons c cs => simp [String.length] at hzero

theorem C6_output_path_witness :
    (default_stem_addon ≠ "") ∧
    ((coco_add_boundaries_and_save_as_annotation_file 1 encodeDim maskOfNat (1 / 50)
        { annotations := sampleAnns, get_boundary := false }
        { parent := "data", stem := "instances", suffix := ".json" } default_stem_addon).2 =
      new_annotation_file { parent := "data", stem := "instances", suffix := ".json" }
        default_stem_addon ∧
     (new_annotation_file { parent := "data", stem := "instances", suffix := ".json" }
        default_stem_addon).parent = "data" ∧
     (new_annotation_file { parent := "data", stem := "instances", suffix := ".json" }
        default_stem_addon).stem ++
       (new_annotation_file { parent := "data", stem := "instances", suffix := ".json" }
        default_stem_addon).suffix = "instances" ++ default_stem_addon ++ ".json" ∧
     new_annotation_file { parent := "data", stem := "instances", suffix := ".json" }
        default_stem_addon ≠
       { parent := "data", stem := "instances", suffix := ".json" }) :=
  ⟨by decide,
   C6_output_path 1 encodeDim maskOfNat (1 / 50)
     { annotations := sampleAnns, get_boundary := false }
     { parent := "data", stem := "instances", suffix := ".json" }
     default_stem_addon (by decide)⟩

end BoundaryUtils
